import Mathlib

/-! Shallow embedding of the two scripts of the repository `clayprod/c2f`
(`download_connector_svgs.py` and `rename_connector_svgs.py`).

Python strings are modelled as `List Char` (a Python `str` is a sequence of
Unicode code points, matching Lean `Char`).  External collaborators — the
search engine, the CDN and the Unicode NFKD table — enter as explicit
function parameters of the definitions that use them.  Fallible calls
return `Except`.  Definitions keep the source's names where Lean allows. -/

namespace C2F

/-- Python regex `\s` on a `str` pattern: Unicode whitespace.  ASCII
whitespace, the whitespace control characters 1C–1F, NEL, NBSP and the
Unicode space code points. -/
def isSpacePy (c : Char) : Bool :=
  c.toNat = 0x20 || c.toNat = 0x09 || c.toNat = 0x0A || c.toNat = 0x0B ||
  c.toNat = 0x0C || c.toNat = 0x0D ||
  (0x1C ≤ c.toNat && c.toNat ≤ 0x1F) || c.toNat = 0x85 || c.toNat = 0xA0 ||
  c.toNat = 0x1680 || (0x2000 ≤ c.toNat && c.toNat ≤ 0x200A) ||
  c.toNat = 0x2028 || c.toNat = 0x2029 || c.toNat = 0x202F ||
  c.toNat = 0x205F || c.toNat = 0x3000

/-- Python regex `\d` (`re.search(r"\d", ...)` in `pick_name_from_titles`,
`re.match(r"^\d+\.svg$", ...)` in `main`).  Python also matches non-ASCII
decimal digits (Unicode category Nd); the scripts only ever meet ASCII
file names and the claims do not depend on non-ASCII digits, so the ASCII
digits model the class. -/
def isDigitPy (c : Char) : Bool :=
  48 ≤ c.toNat && c.toNat ≤ 57

/-- Python `str.lower()`.  Python applies the full Unicode lowercase
mapping; the scripts use `lower` only to compare against the ASCII
stop-phrase set and on ASCII-filtered text, so the ASCII mapping models
it. -/
def toLowerPy (c : Char) : Char :=
  if 65 ≤ c.toNat && c.toNat ≤ 90 then Char.ofNat (c.toNat + 32) else c

/-- Python `str.strip` with the set of stripped characters given by `p`:
drops the longest run of `p`-characters from both ends. -/
def pyStrip (p : Char → Bool) (s : List Char) : List Char :=
  ((s.dropWhile p).reverse.dropWhile p).reverse

/-- The character class of the separator regex on line 63,
`re.split(r"\s[-|:â€”]\s", title)`.  The source file's bytes there are
`2d 7c 3a c3a2 e282ac e2809d`: a hyphen, a pipe, a colon, and the three
characters U+00E2, U+20AC, U+201D (an em-dash that went through a
UTF-8/cp1252 mojibake round trip).  A true em-dash U+2014 is not in the
class. -/
def sepChars : List Char :=
  ['-', '|', ':', Char.ofNat 0xE2, Char.ofNat 0x20AC, Char.ofNat 0x201D]

/-- First field of `re.split(r"\s[-|:â€”]\s", title)`: the prefix of the
title that precedes the leftmost occurrence of a whitespace character, a
separator character and a whitespace character in a row; the whole title
when no such occurrence exists. -/
def splitFirstField : List Char → List Char
  | a :: b :: c :: rest =>
      if isSpacePy a && sepChars.contains b && isSpacePy c then []
      else a :: splitFirstField (b :: c :: rest)
  | l => l

/-- `re.split(r"\s[-|:â€”]\s", title)[0].strip()` — the candidate taken
from one result title (line 63). -/
def candidateOf (title : List Char) : List Char :=
  pyStrip isSpacePy (splitFirstField title)

/-- The separator class as claim C2 words it: dash, colon and em-dash
only.  Compared against `splitFirstField`, which follows the source. -/
def claimedSepChars : List Char :=
  ['-', ':', '—']

/-- Splitting as claim C2 words it: same leftmost-match rule as
`splitFirstField` but over `claimedSepChars`. -/
def claimedSplitFirstField : List Char → List Char
  | a :: b :: c :: rest =>
      if isSpacePy a && claimedSepChars.contains b && isSpacePy c then []
      else a :: claimedSplitFirstField (b :: c :: rest)
  | l => l

/-- The candidate as claim C2 words it. -/
def claimedCandidateOf (title : List Char) : List Char :=
  pyStrip isSpacePy (claimedSplitFirstField title)

/-- `STOP_PHRASES` from `rename_connector_svgs.py` (a Python `set`;
iteration order is irrelevant because it is only used under `any`). -/
def STOP_PHRASES : List (List Char) :=
  ["pluggy".toList, "connector".toList, "connector icons".toList,
   "connector-icons".toList, "svg".toList, "icon".toList, "logo".toList,
   "vector".toList, "brand".toList]

/-- Python substring containment `needle in hay`. -/
def containsSub (needle hay : List Char) : Bool :=
  hay.tails.any (fun t => needle.isPrefixOf t)

/-- `pick_name_from_titles` (lines 61–72): first title whose candidate
contains no stop phrase (case-insensitively), contains no digit and has
length within [3, 60]; `none` when no title survives. -/
def pick_name_from_titles : List (List Char) → Option (List Char)
  | [] => none
  | title :: rest =>
      let candidate := candidateOf title
      let lower := candidate.map toLowerPy
      if STOP_PHRASES.any (fun phrase => containsSub phrase lower) then
        pick_name_from_titles rest
      else if candidate.any isDigitPy then
        pick_name_from_titles rest
      else if candidate.length < 3 || 60 < candidate.length then
        pick_name_from_titles rest
      else
        some candidate

/-- Survival predicate of claim C5's wording: no stop phrase
(case-insensitively), no digit, length within [3, 60]. -/
def survivesFilters (candidate : List Char) : Bool :=
  !(STOP_PHRASES.any (fun phrase => containsSub phrase (candidate.map toLowerPy))) &&
  !(candidate.any isDigitPy) &&
  !(candidate.length < 3 || 60 < candidate.length)

/-- The regex class `[a-z0-9]` of `normalize_name`. -/
def isAlnumLower (c : Char) : Bool :=
  (97 ≤ c.toNat && c.toNat ≤ 122) || (48 ≤ c.toNat && c.toNat ≤ 57)

/-- Scan of `re.sub(r"[^a-z0-9]+", "_", s)`: the flag `inRun` records
whether the scanner stands inside a non-alphanumeric run whose single
replacement underscore has already been emitted. -/
def subNonAlnumGo (inRun : Bool) : List Char → List Char
  | [] => []
  | c :: rest =>
      if isAlnumLower c then c :: subNonAlnumGo false rest
      else if inRun then subNonAlnumGo true rest
      else '_' :: subNonAlnumGo true rest

/-- `re.sub(r"[^a-z0-9]+", "_", s)`: every maximal run of characters
outside `[a-z0-9]` becomes a single underscore. -/
def subNonAlnum (s : List Char) : List Char :=
  subNonAlnumGo false s

/-- Scan of `re.sub(r"_+", "_", s)`: the flag `inRun` records whether the
scanner stands inside an underscore run whose single replacement
underscore has already been emitted. -/
def collapseUnderscoresGo (inRun : Bool) : List Char → List Char
  | [] => []
  | c :: rest =>
      if c = '_' then
        if inRun then collapseUnderscoresGo true rest
        else '_' :: collapseUnderscoresGo true rest
      else c :: collapseUnderscoresGo false rest

/-- `re.sub(r"_+", "_", s)`: every maximal run of underscores becomes a
single underscore. -/
def collapseUnderscores (s : List Char) : List Char :=
  collapseUnderscoresGo false s

/-- `normalize_name` (lines 52–58).  `unicodedata.normalize("NFKD", ·)`
is the external Unicode table and enters as the parameter `nfkd`;
`.encode("ascii", "ignore").decode("ascii")` keeps exactly the code
points below 128; then lowercase, non-alphanumeric runs to `_`, collapse
`_` runs, strip `_` from both ends. -/
def normalize_name (nfkd : List Char → List Char) (raw_name : List Char) : List Char :=
  pyStrip (fun c => c = '_')
    (collapseUnderscores
      (subNonAlnum (((nfkd raw_name).filter (fun c => c.toNat < 128)).map toLowerPy)))

/-- Characters that can occur in a `normalize_name` output. -/
def isSlugChar (c : Char) : Bool :=
  isAlnumLower c || c = '_'

/-- Acceptor of the regex `^[a-z0-9]+(_[a-z0-9]+)*$` in claim C4: state
`needAl = true` exactly at the start and right after an underscore, where
an alphanumeric is required before the string may end. -/
def slugAux (needAl : Bool) : List Char → Bool
  | [] => !needAl
  | c :: rest =>
      if isAlnumLower c then slugAux false rest
      else if !needAl && c = '_' then slugAux true rest
      else false

/-- Whole-string match of `^[a-z0-9]+(_[a-z0-9]+)*$`. -/
def slugPattern (s : List Char) : Bool :=
  slugAux true s

/-- The query list built by `identify_institution` (lines 76–78): always
`"pluggy connector {icon_id} svg bank"` first, then `"{hints[0]} logo"`
when the hint list is non-empty. -/
def queriesFor (icon_id : List Char) (hints : List (List Char)) : List (List Char) :=
  ("pluggy connector ".toList ++ icon_id ++ " svg bank".toList) ::
    (match hints with
     | [] => []
     | h :: _ => [h ++ " logo".toList])

/-- The `for query in queries` loop of `identify_institution`
(lines 80–89), with the search collaborator as a total function (the
no-transport-failure view used by claim C6).  Returns the result together
with the list of queries actually sent to the search engine, in order.
`time.sleep(1)` has no observable effect in the model. -/
def identifyLoop (search : List Char → List (List Char))
    (nfkd : List Char → List Char) :
    List (List Char) → Option (List Char) × List (List Char)
  | [] => (none, [])
  | query :: rest =>
      let titles := search query
      match pick_name_from_titles titles with
      | some candidate =>
          if !candidate.isEmpty then
            let normalized := normalize_name nfkd candidate
            if !normalized.isEmpty then (some normalized, [query])
            else
              let r := identifyLoop search nfkd rest
              (r.1, query :: r.2)
          else
            let r := identifyLoop search nfkd rest
            (r.1, query :: r.2)
      | none =>
          let r := identifyLoop search nfkd rest
          (r.1, query :: r.2)

/-- `identify_institution` (lines 75–89) in the total-search view. -/
def identify_institution (search : List Char → List (List Char))
    (nfkd : List Char → List Char)
    (icon_id : List Char) (hints : List (List Char)) : Option (List Char) :=
  (identifyLoop search nfkd (queriesFor icon_id hints)).1

/-- Outcome of one loop iteration of `identify_institution` on one query:
the normalized slug when the picked candidate is truthy and normalizes to
a non-empty slug, `none` otherwise.  Used to state claim C6. -/
def slugOutcome (search : List Char → List (List Char))
    (nfkd : List Char → List Char) (query : List Char) : Option (List Char) :=
  match pick_name_from_titles (search query) with
  | some candidate =>
      if !candidate.isEmpty then
        let normalized := normalize_name nfkd candidate
        if !normalized.isEmpty then some normalized else none
      else none
  | none => none

/-- Number of queries the loop issues according to claim C6's wording:
every query up to and including the first successful one, all of them
when none succeeds. -/
def issuedCount (outcome : List Char → Option (List Char)) :
    List (List Char) → Nat
  | [] => 0
  | query :: rest =>
      if (outcome query).isSome then 1 else 1 + issuedCount outcome rest

/-- `extract_hints` composed with reading a file is not itself the
subject of any claim; the renaming-driver model takes the map from a file
name to its extracted hints as the parameter `hintsOf`. -/
inductive RenameEvent where
  | renamed (oldName newName : List Char)
  | skippedNoMatch (name : List Char)
  | skippedTargetExists (name newName : List Char)
deriving DecidableEq

/-- The `for query in queries` loop of `identify_institution` with the
search collaborator as a fallible call: `fetch_search_results` is not
guarded by any `try`, so a raised transport error propagates out of
`identify_institution` (this is the view claims C1, C8 and C9 need). -/
def identifyLoopE {ε : Type} (search : List Char → Except ε (List (List Char)))
    (nfkd : List Char → List Char) :
    List (List Char) → Except ε (Option (List Char))
  | [] => Except.ok none
  | query :: rest =>
      match search query with
      | Except.error e => Except.error e
      | Except.ok titles =>
          match pick_name_from_titles titles with
          | some candidate =>
              if !candidate.isEmpty then
                let normalized := normalize_name nfkd candidate
                if !normalized.isEmpty then Except.ok (some normalized)
                else identifyLoopE search nfkd rest
              else identifyLoopE search nfkd rest
          | none => identifyLoopE search nfkd rest

/-- `identify_institution` in the fallible-search view. -/
def identify_institutionE {ε : Type} (search : List Char → Except ε (List (List Char)))
    (nfkd : List Char → List Char)
    (icon_id : List Char) (hints : List (List Char)) : Except ε (Option (List Char)) :=
  identifyLoopE search nfkd (queriesFor icon_id hints)

/-- The filename filter of the renaming driver (line 98):
`re.match(r"^\d+\.svg$", name)` — one or more digits followed by exactly
`.svg`. -/
def matchesNumSvg (name : List Char) : Bool :=
  5 ≤ name.length &&
  name.drop (name.length - 4) == ".svg".toList &&
  (name.take (name.length - 4)).all isDigitPy

/-- `int(name.split(".")[0])` on a scanned file name: the decimal value
of the digit prefix (the sort key on line 104). -/
def numericKey (name : List Char) : Nat :=
  (name.takeWhile (fun c => c ≠ '.')).foldl (fun n c => 10 * n + (c.toNat - 48)) 0

/-- Insertion into a key-sorted list, after every entry with a key less
than or equal to the new entry's key (so the insertion sort built from it
is stable, like Python's `sorted`). -/
def insertSorted (key : List Char → Nat) (x : List Char) :
    List (List Char) → List (List Char)
  | [] => [x]
  | y :: rest =>
      if key x < key y then x :: y :: rest else y :: insertSorted key x rest

/-- Stable sort by a numeric key: a model of `sorted(..., key=...)`
(Python's sort is stable; on this key any stable sort agrees with it). -/
def sortByKey (key : List Char → Nat) (l : List (List Char)) : List (List Char) :=
  l.foldl (fun acc x => insertSorted key x acc) []

/-- Lines 97–99 and the `sorted` call on line 104: the directory entries
matching `^\d+\.svg$`, sorted by their numeric identifier. -/
def scanSvgFiles (dir : List (List Char)) : List (List Char) :=
  sortByKey numericKey (dir.filter matchesNumSvg)

/-- The body of the `for filename in sorted(...)` loop of the renaming
driver (lines 104–123) for one file: identify, then either skip
(no confident match), skip (target exists) or rename.  The directory is
the list of file names; `os.rename` removes the old name and adds the new
one; `os.path.exists` is membership.  A transport error from the search
client propagates (`Except.error`). -/
def processFile {ε : Type} (search : List Char → Except ε (List (List Char)))
    (nfkd : List Char → List Char) (hintsOf : List Char → List (List Char))
    (dir : List (List Char)) (name : List Char) :
    Except ε (List (List Char) × RenameEvent) :=
  let icon_id := name.takeWhile (fun c => c ≠ '.')
  match identify_institutionE search nfkd icon_id (hintsOf name) with
  | Except.error e => Except.error e
  | Except.ok none => Except.ok (dir, RenameEvent.skippedNoMatch name)
  | Except.ok (some institution) =>
      if institution.isEmpty then Except.ok (dir, RenameEvent.skippedNoMatch name)
      else
        let newName := icon_id ++ '_' :: (institution ++ ".svg".toList)
        if newName ∈ dir then
          Except.ok (dir, RenameEvent.skippedTargetExists name newName)
        else
          Except.ok (dir.erase name ++ [newName], RenameEvent.renamed name newName)

/-- The batch loop of the renaming driver over an already-scanned file
list: returns the final directory, the per-file outcomes in order, and
`some e` when a propagated transport error aborted the loop (in which
case the remaining files get no outcome). -/
def renameLoop {ε : Type} (search : List Char → Except ε (List (List Char)))
    (nfkd : List Char → List Char) (hintsOf : List Char → List (List Char)) :
    List (List Char) → List (List Char) →
    List (List Char) × List RenameEvent × Option ε
  | [], dir => (dir, [], none)
  | name :: rest, dir =>
      match processFile search nfkd hintsOf dir name with
      | Except.error e => (dir, [], some e)
      | Except.ok (dir2, ev) =>
          let r := renameLoop search nfkd hintsOf rest dir2
          (r.1, ev :: r.2.1, r.2.2)

/-- `main` of `rename_connector_svgs.py` (lines 92–125) on a present
directory: scan, sort, process each file.  The missing-directory and
empty-scan branches only choose an exit code and are not modelled. -/
def rename_main {ε : Type} (search : List Char → Except ε (List (List Char)))
    (nfkd : List Char → List Char) (hintsOf : List Char → List (List Char))
    (dir : List (List Char)) :
    List (List Char) × List RenameEvent × Option ε :=
  renameLoop search nfkd hintsOf (scanSvgFiles dir) dir

/-- `identify_institutionE` as invoked by the driver on a file name
(line 105 computes `icon_id` from the name, line 110 calls the
orchestrator). -/
def identifyOutcome {ε : Type} (search : List Char → Except ε (List (List Char)))
    (nfkd : List Char → List Char) (hintsOf : List Char → List (List Char))
    (name : List Char) : Except ε (Option (List Char)) :=
  identify_institutionE search nfkd (name.takeWhile (fun c => c ≠ '.')) (hintsOf name)

/-- The target name `f"{icon_id}_{institution}.svg"` computed on
line 115, with `icon_id` as the driver derives it from the file name on
line 105. -/
def newNameFor (name institution : List Char) : List Char :=
  (name.takeWhile (fun c => c ≠ '.')) ++ '_' :: (institution ++ ".svg".toList)

/-- What one `urlopen` of the fetcher can observe
(`download_connector_svgs.py`, lines 14–23): a response with a status and
a body, an `HTTPError`, or a `URLError`. -/
inductive NetOutcome where
  | ok (status : Nat) (body : List Nat)
  | httpError
  | urlError
deriving DecidableEq

/-- Body of a network outcome; `[]` for the error cases (never used on
them). -/
def bodyOf : NetOutcome → List Nat
  | NetOutcome.ok _ body => body
  | NetOutcome.httpError => []
  | NetOutcome.urlError => []

/-- `download_svg` succeeds exactly on a status-200 response. -/
def isSuccess : NetOutcome → Bool
  | NetOutcome.ok status _ => status == 200
  | NetOutcome.httpError => false
  | NetOutcome.urlError => false

/-- `f"{icon_id}.svg"` for a natural identifier. -/
def svgFileName (icon_id : Nat) : List Char :=
  Nat.toDigits 10 icon_id ++ ".svg".toList

/-- `open(output_path, "wb")` followed by `write`: replaces the content
when the name exists, appends the file otherwise. -/
def writeFile (dir : List (List Char × List Nat)) (name : List Char)
    (content : List Nat) : List (List Char × List Nat) :=
  if dir.any (fun p => p.1 == name) then
    dir.map (fun p => if p.1 == name then (name, content) else p)
  else dir ++ [(name, content)]

/-- `download_svg` (lines 10–27): on a non-200 status, an `HTTPError` or
a `URLError` it returns `False` without touching the directory; only
after the body has been read successfully does it write
`{icon_id}.svg`. -/
def download_svg (net : Nat → NetOutcome) (icon_id : Nat)
    (dir : List (List Char × List Nat)) : List (List Char × List Nat) × Bool :=
  match net icon_id with
  | NetOutcome.ok status body =>
      if status ≠ 200 then (dir, false)
      else (writeFile dir (svgFileName icon_id) body, true)
  | NetOutcome.httpError => (dir, false)
  | NetOutcome.urlError => (dir, false)

/-- The `while True` loop of the fetcher's `main` (lines 33–40), run on
`fuel` iterations at most: `none` means the fuel ran out with the loop
still going; `some (dir, stopId, attempted)` means the loop stopped on
the first failed download, with the final directory, the failing
identifier and the list of attempted identifiers in order. -/
def fetchLoop (net : Nat → NetOutcome) :
    Nat → Nat → List (List Char × List Nat) →
    Option (List (List Char × List Nat) × Nat × List Nat)
  | 0, _, _ => none
  | fuel + 1, icon_id, dir =>
      let r := download_svg net icon_id dir
      if r.2 then
        match fetchLoop net fuel (icon_id + 1) r.1 with
        | some (d, stopId, attempted) => some (d, stopId, icon_id :: attempted)
        | none => none
      else some (dir, icon_id, [icon_id])

/-- `main` of `download_connector_svgs.py`: `os.makedirs(..., exist_ok)`
then the loop from identifier 201 on an initially empty directory. -/
def download_main (net : Nat → NetOutcome) (fuel : Nat) :
    Option (List (List Char × List Nat) × Nat × List Nat) :=
  fetchLoop net fuel 201 []

/-- The directory after the successful downloads of the `n` identifiers
`start, start+1, …, start+n-1`: each one written in order. -/
def writeRun (net : Nat → NetOutcome) :
    Nat → Nat → List (List Char × List Nat) → List (List Char × List Nat)
  | _, 0, dir => dir
  | start, n + 1, dir =>
      writeRun net (start + 1) n (writeFile dir (svgFileName start) (bodyOf (net start)))

/-- Match of `\s[-|:â€”]\s` at position `i` of a title (the separator of
`pick_name_from_titles`, line 63). -/
def sepMatchAt (t : List Char) (i : Nat) : Bool :=
  match t.drop i with
  | a :: b :: c :: _ => isSpacePy a && sepChars.contains b && isSpacePy c
  | _ => false

/-- Adjacency relation used to state that a string has no two adjacent
underscores. -/
def noDbl (a b : Char) : Prop :=
  ¬(a = '_' ∧ b = '_')

/-! Lemmas about the name normalizer. -/

theorem isAlnumLower_ne_us {c : Char} (h : isAlnumLower c = true) : c ≠ '_' := by
  intro hc
  subst hc
  simp [isAlnumLower] at h

theorem mem_subNonAlnumGo {b : Bool} {s : List Char} :
    ∀ c ∈ subNonAlnumGo b s, isSlugChar c = true := by
  induction s generalizing b with
  | nil => simp [subNonAlnumGo]
  | cons c rest ih =>
    intro d hd
    by_cases h : isAlnumLower c = true
    · simp only [subNonAlnumGo, h, if_pos, List.mem_cons] at hd
      rcases hd with h1 | h1
      · subst h1
        simp [isSlugChar, h]
      · exact ih d h1
    · cases b with
      | true =>
        simp only [subNonAlnumGo, h, Bool.false_eq_true, if_false, if_true] at hd
        exact ih d hd
      | false =>
        simp only [subNonAlnumGo, h, Bool.false_eq_true, if_false, List.mem_cons] at hd
        rcases hd with h1 | h1
        · subst h1
          simp [isSlugChar]
        · exact ih d h1

theorem head_subNonAlnumGo_true {s : List Char} :
    (subNonAlnumGo true s).head? ≠ some '_' := by
  induction s with
  | nil => simp [subNonAlnumGo]
  | cons c rest ih =>
    by_cases h : isAlnumLower c = true
    · simp only [subNonAlnumGo, h, if_pos, List.head?_cons]
      intro hc
      exact isAlnumLower_ne_us h (by injection hc)
    · simpa only [subNonAlnumGo, h, Bool.false_eq_true, if_false, if_true] using ih

theorem chain_subNonAlnumGo {b : Bool} {s : List Char} :
    List.Chain' noDbl (subNonAlnumGo b s) := by
  induction s generalizing b with
  | nil => simp [subNonAlnumGo]
  | cons c rest ih =>
    by_cases h : isAlnumLower c = true
    · simp only [subNonAlnumGo, h, if_pos]
      rw [List.chain'_cons']
      refine ⟨?_, ih⟩
      intro y _
      exact fun hp => isAlnumLower_ne_us h hp.1
    · cases b with
      | true =>
        simpa only [subNonAlnumGo, h, Bool.false_eq_true, if_false, if_true] using ih
      | false =>
        simp only [subNonAlnumGo, h, Bool.false_eq_true, if_false]
        rw [List.chain'_cons']
        refine ⟨?_, ih⟩
        intro y hy
        intro hp
        exact head_subNonAlnumGo_true (by rw [hy, hp.2])

theorem subNonAlnumGo_fix {s : List Char}
    (h1 : ∀ c ∈ s, isSlugChar c = true) (h2 : List.Chain' noDbl s) :
    subNonAlnumGo false s = s ∧
      (s.head? ≠ some '_' → subNonAlnumGo true s = s) := by
  induction s with
  | nil => simp [subNonAlnumGo]
  | cons c rest ih =>
    have hc : isSlugChar c = true := h1 c (List.mem_cons_self c rest)
    have hrest : ∀ d ∈ rest, isSlugChar d = true :=
      fun d hd => h1 d (List.mem_cons_of_mem c hd)
    rw [List.chain'_cons'] at h2
    have ihr := ih hrest h2.2
    by_cases h : isAlnumLower c = true
    · constructor
      · simp only [subNonAlnumGo, h, if_pos, ihr.1]
      · intro _
        simp only [subNonAlnumGo, h, if_pos, ihr.1]
    · have hcu : c = '_' := by
        simp only [isSlugChar, h, Bool.false_or, decide_eq_true_eq] at hc
        exact hc
      subst hcu
      have hhead : rest.head? ≠ some '_' := by
        intro hh
        exact h2.1 '_' hh ⟨rfl, rfl⟩
      constructor
      · simp [subNonAlnumGo, h, ihr.2 hhead]
      · intro hcon
        exact (hcon List.head?_cons).elim

theorem collapseUnderscoresGo_fix {s : List Char} (h2 : List.Chain' noDbl s) :
    collapseUnderscoresGo false s = s ∧
      (s.head? ≠ some '_' → collapseUnderscoresGo true s = s) := by
  induction s with
  | nil => simp [collapseUnderscoresGo]
  | cons c rest ih =>
    rw [List.chain'_cons'] at h2
    have ihr := ih h2.2
    by_cases h : c = '_'
    · subst h
      have hhead : rest.head? ≠ some '_' := by
        intro hh
        exact h2.1 '_' hh ⟨rfl, rfl⟩
      constructor
      · simp [collapseUnderscoresGo, ihr.2 hhead]
      · intro hcon
        exact (hcon List.head?_cons).elim
    · constructor
      · simp [collapseUnderscoresGo, h, ihr.1]
      · intro _
        simp [collapseUnderscoresGo, h, ihr.1]

theorem dropWhile_head_not {p : Char → Bool} {l : List Char} {c : Char}
    (h : (l.dropWhile p).head? = some c) : p c = false := by
  induction l with
  | nil => simp [List.dropWhile] at h
  | cons a rest ih =>
    by_cases hp : p a = true
    · rw [List.dropWhile_cons_of_pos hp] at h
      exact ih h
    · rw [List.dropWhile_cons_of_neg hp, List.head?_cons] at h
      injection h with h
      subst h
      exact Bool.eq_false_iff.mpr hp

theorem dropWhile_eq_self_of_head {p : Char → Bool} {l : List Char}
    (h : ∀ c, l.head? = some c → p c = false) : l.dropWhile p = l := by
  cases l with
  | nil => rfl
  | cons a rest =>
    exact List.dropWhile_cons_of_neg
      (by simp [h a List.head?_cons])

theorem mem_pyStrip {p : Char → Bool} {s : List Char} {c : Char}
    (h : c ∈ pyStrip p s) : c ∈ s := by
  unfold pyStrip at h
  rw [List.mem_reverse] at h
  have h2 := List.dropWhile_sublist (l := (s.dropWhile p).reverse) p
  have h3 := h2.mem h
  rw [List.mem_reverse] at h3
  exact (List.dropWhile_sublist p).mem h3

theorem chain_pyStrip {s : List Char} (h : List.Chain' noDbl s) {p : Char → Bool} :
    List.Chain' noDbl (pyStrip p s) := by
  unfold pyStrip
  have hsym : flip noDbl = noDbl := by
    funext a b
    simp only [flip, noDbl]
    exact propext (by tauto)
  have h1 : List.Chain' noDbl (s.dropWhile p) :=
    h.suffix (List.dropWhile_suffix p)
  have h2 : List.Chain' noDbl (s.dropWhile p).reverse := by
    rw [List.chain'_reverse, hsym]
    exact h1
  have h3 : List.Chain' noDbl ((s.dropWhile p).reverse.dropWhile p) :=
    h2.suffix (List.dropWhile_suffix p)
  rw [List.chain'_reverse, hsym]
  exact h3

theorem pyStrip_head {p : Char → Bool} {s : List Char} {c : Char}
    (h : (pyStrip p s).head? = some c) : p c = false := by
  unfold pyStrip at h
  rw [List.head?_reverse] at h
  rcases hu : (s.dropWhile p).reverse.dropWhile p with _ | ⟨a, rest⟩
  · rw [hu] at h
    simp at h
  · rcases List.dropWhile_suffix (l := (s.dropWhile p).reverse) p with ⟨pre, hpre⟩
    rw [hu] at h hpre
    have hlast : ((s.dropWhile p).reverse).getLast? = some c := by
      rw [← hpre, List.getLast?_append_of_ne_nil pre (by simp)]
      exact h
    rw [List.getLast?_reverse] at hlast
    exact dropWhile_head_not hlast

theorem pyStrip_last {p : Char → Bool} {s : List Char} {c : Char}
    (h : (pyStrip p s).getLast? = some c) : p c = false := by
  unfold pyStrip at h
  rw [List.getLast?_reverse] at h
  exact dropWhile_head_not h

theorem pyStrip_fix {p : Char → Bool} {s : List Char}
    (hh : ∀ c, s.head? = some c → p c = false)
    (hl : ∀ c, s.getLast? = some c → p c = false) : pyStrip p s = s := by
  unfold pyStrip
  rw [dropWhile_eq_self_of_head hh]
  rw [dropWhile_eq_self_of_head (fun c hc => hl c (by rwa [List.head?_reverse] at hc))]
  exact List.reverse_reverse s

theorem map_eq_self_of {f : Char → Char} {l : List Char}
    (h : ∀ c ∈ l, f c = c) : l.map f = l := by
  induction l with
  | nil => rfl
  | cons a rest ih =>
    rw [List.map_cons, h a (List.mem_cons_self a rest),
      ih (fun c hc => h c (List.mem_cons_of_mem a hc))]

theorem slugChar_lt128 {c : Char} (h : isSlugChar c = true) :
    decide (c.toNat < 128) = true := by
  simp only [isSlugChar, isAlnumLower, Bool.or_eq_true, Bool.and_eq_true,
    decide_eq_true_eq] at h
  simp only [decide_eq_true_eq]
  rcases h with (⟨h1, h2⟩ | ⟨h1, h2⟩) | h1
  · omega
  · omega
  · subst h1
    decide

theorem toLowerPy_slugChar {c : Char} (h : isSlugChar c = true) :
    toLowerPy c = c := by
  simp only [isSlugChar, isAlnumLower, Bool.or_eq_true, Bool.and_eq_true,
    decide_eq_true_eq] at h
  unfold toLowerPy
  rcases h with (⟨h1, h2⟩ | ⟨h1, h2⟩) | h1
  · rw [if_neg (by simp only [Bool.and_eq_true, decide_eq_true_eq]; omega)]
  · rw [if_neg (by simp only [Bool.and_eq_true, decide_eq_true_eq]; omega)]
  · subst h1
    decide

theorem normalize_props (nfkd : List Char → List Char) (raw : List Char) :
    (∀ c ∈ normalize_name nfkd raw, isSlugChar c = true) ∧
    List.Chain' noDbl (normalize_name nfkd raw) ∧
    (normalize_name nfkd raw).head? ≠ some '_' ∧
    (normalize_name nfkd raw).getLast? ≠ some '_' := by
  unfold normalize_name collapseUnderscores subNonAlnum
  rw [(collapseUnderscoresGo_fix (chain_subNonAlnumGo)).1]
  refine ⟨?_, ?_, ?_, ?_⟩
  · exact fun c hc => mem_subNonAlnumGo c (mem_pyStrip hc)
  · exact chain_pyStrip chain_subNonAlnumGo
  · intro heq
    have := pyStrip_head heq
    simp at this
  · intro heq
    have := pyStrip_last heq
    simp at this

theorem slugAux_of_props {s : List Char}
    (h1 : ∀ c ∈ s, isSlugChar c = true) (h2 : List.Chain' noDbl s)
    (h4 : s.getLast? ≠ some '_') :
    slugAux false s = true ∧
      (s ≠ [] → s.head? ≠ some '_' → slugAux true s = true) := by
  induction s with
  | nil =>
    refine ⟨by simp [slugAux], fun h => (h rfl).elim⟩
  | cons c rest ih =>
    have hc := h1 c (List.mem_cons_self c rest)
    have hrest : ∀ d ∈ rest, isSlugChar d = true :=
      fun d hd => h1 d (List.mem_cons_of_mem c hd)
    rw [List.chain'_cons'] at h2
    have h4r : rest.getLast? ≠ some '_' := by
      cases rest with
      | nil => simp
      | cons d rr => rwa [List.getLast?_cons_cons] at h4
    have ihr := ih hrest h2.2 h4r
    by_cases h : isAlnumLower c = true
    · refine ⟨by simp [slugAux, h, ihr.1], fun _ _ => by simp [slugAux, h, ihr.1]⟩
    · have hcu : c = '_' := by
        simp only [isSlugChar, h, Bool.false_or, decide_eq_true_eq] at hc
        exact hc
      subst hcu
      have hrne : rest ≠ [] := by
        intro hr
        subst hr
        simp at h4
      have hhead : rest.head? ≠ some '_' := fun hh => h2.1 '_' hh ⟨rfl, rfl⟩
      refine ⟨?_, fun _ hcon => (hcon List.head?_cons).elim⟩
      simp [slugAux, h, ihr.2 hrne hhead]

/-- C4: for every input string, the output of the name normalizer
`normalize_name` either matches `^[a-z0-9]+(_[a-z0-9]+)*$` (lowercase
ASCII alphanumerics, single underscores as the only separator, no leading
or trailing underscore) or is the empty string — whatever the external
NFKD table returns. -/
theorem normalize_charset_invariant (nfkd : List Char → List Char) (raw : List Char) :
    normalize_name nfkd raw = [] ∨ slugPattern (normalize_name nfkd raw) = true := by
  rcases hn : normalize_name nfkd raw with _ | ⟨a, rest⟩
  · exact Or.inl rfl
  · right
    have hp := normalize_props nfkd raw
    rw [hn] at hp
    exact (slugAux_of_props hp.1 hp.2.1 hp.2.2.2).2 (by simp) hp.2.2.1

/-- C3: normalization is idempotent,
`normalize_name nfkd (normalize_name nfkd x) = normalize_name nfkd x`
for every input `x`, given that the NFKD table fixes strings made of
lowercase ASCII alphanumerics and underscores (which is true of the real
`unicodedata.normalize("NFKD", ·)`, since those strings are NFKD-normal
ASCII). -/
theorem normalize_idempotent (nfkd : List Char → List Char)
    (hfix : ∀ s : List Char, (∀ c ∈ s, isSlugChar c = true) → nfkd s = s)
    (x : List Char) :
    normalize_name nfkd (normalize_name nfkd x) = normalize_name nfkd x := by
  obtain ⟨hall, hchain, hhead, hlast⟩ := normalize_props nfkd x
  set y := normalize_name nfkd x with hy
  have h1 : nfkd y = y := hfix y hall
  have h2 : y.filter (fun c => c.toNat < 128) = y :=
    List.filter_eq_self.mpr (fun c hc => slugChar_lt128 (hall c hc))
  have h3 : y.map toLowerPy = y :=
    map_eq_self_of (fun c hc => toLowerPy_slugChar (hall c hc))
  have h4 : subNonAlnum y = y := (subNonAlnumGo_fix hall hchain).1
  have h5 : collapseUnderscores y = y := (collapseUnderscoresGo_fix hchain).1
  have h6 : pyStrip (fun c => c = '_') y = y :=
    pyStrip_fix
      (fun c hc => by
        simp only [decide_eq_false_iff_not]
        intro he
        subst he
        exact hhead hc)
      (fun c hc => by
        simp only [decide_eq_false_iff_not]
        intro he
        subst he
        exact hlast hc)
  calc normalize_name nfkd y
      = pyStrip (fun c => c = '_')
          (collapseUnderscores
            (subNonAlnum (((nfkd y).filter (fun c => c.toNat < 128)).map toLowerPy))) := rfl
    _ = y := by rw [h1, h2, h3, h4, h5]; exact h6

/-- Witness for `normalize_idempotent`: the NFKD parameter instantiated
with the identity and a concrete input. -/
theorem normalize_idempotent_witness :
    normalize_name id (normalize_name id "  Banco--Itau!! ".toList) =
      normalize_name id "  Banco--Itau!! ".toList :=
  normalize_idempotent id (fun _ _ => rfl) "  Banco--Itau!! ".toList

/-! Lemmas about the candidate splitter and selector. -/

theorem sepMatchAt_short {t : List Char} {i : Nat} (h : t.length ≤ 2) :
    sepMatchAt t i = false := by
  unfold sepMatchAt
  rcases hd : t.drop i with _ | ⟨a, r1⟩
  · rfl
  rcases r1 with _ | ⟨b, r2⟩
  · rfl
  rcases r2 with _ | ⟨c, r3⟩
  · rfl
  exfalso
  have hlen := congrArg List.length hd
  simp only [List.length_drop, List.length_cons] at hlen
  omega

theorem sepMatchAt_cons_succ (a : Char) (l : List Char) (i : Nat) :
    sepMatchAt (a :: l) (i + 1) = sepMatchAt l i := by
  unfold sepMatchAt
  rw [List.drop_succ_cons]

theorem sepMatchAt_cons_zero (a b c : Char) (r : List Char) :
    sepMatchAt (a :: b :: c :: r) 0 =
      (isSpacePy a && sepChars.contains b && isSpacePy c) := rfl

theorem splitFirstField_spec (t : List Char) :
    (∀ i, sepMatchAt t i = false) ∧ splitFirstField t = t ∨
      ∃ i, sepMatchAt t i = true ∧ (∀ j, j < i → sepMatchAt t j = false) ∧
        splitFirstField t = t.take i := by
  induction t with
  | nil =>
    exact Or.inl ⟨fun i => sepMatchAt_short (by simp), rfl⟩
  | cons a tail ih =>
    rcases tail with _ | ⟨b, r1⟩
    · exact Or.inl ⟨fun i => sepMatchAt_short (by simp), rfl⟩
    rcases r1 with _ | ⟨c, rest⟩
    · exact Or.inl ⟨fun i => sepMatchAt_short (by simp), rfl⟩
    have hunfold : splitFirstField (a :: b :: c :: rest) =
        if (isSpacePy a && sepChars.contains b && isSpacePy c) = true then []
        else a :: splitFirstField (b :: c :: rest) := by
      simp [splitFirstField]
    by_cases h : (isSpacePy a && sepChars.contains b && isSpacePy c) = true
    · right
      refine ⟨0, by rw [sepMatchAt_cons_zero]; exact h,
        fun j hj => absurd hj (Nat.not_lt_zero j), ?_⟩
      rw [hunfold, if_pos h, List.take_zero]
    · have hsplit : splitFirstField (a :: b :: c :: rest) =
        a :: splitFirstField (b :: c :: rest) := by
        rw [hunfold, if_neg h]
      rcases ih with ⟨hall, heq⟩ | ⟨i, hi, hmin, heq⟩
      · left
        refine ⟨?_, by rw [hsplit, heq]⟩
        intro i
        cases i with
        | zero => rw [sepMatchAt_cons_zero]; exact Bool.eq_false_iff.mpr h
        | succ j => rw [sepMatchAt_cons_succ]; exact hall j
      · right
        refine ⟨i + 1, by rw [sepMatchAt_cons_succ]; exact hi, ?_, ?_⟩
        · intro j hj
          cases j with
          | zero => rw [sepMatchAt_cons_zero]; exact Bool.eq_false_iff.mpr h
          | succ k => rw [sepMatchAt_cons_succ]; exact hmin k (by omega)
        · rw [hsplit, heq, List.take_succ_cons]

/-- C2 (amended): for every title, the candidate is the
whitespace-stripped prefix preceding the leftmost occurrence of a
separator from the source's class `[-|:â€”]` — hyphen, pipe, colon,
U+00E2, U+20AC, U+201D — flanked by whitespace on both sides, and the
whole (stripped) title when no such occurrence exists.  In particular a
pipe splits and a true em-dash U+2014 does not. -/
theorem candidate_split_characterization (t : List Char) :
    candidateOf t = pyStrip isSpacePy (splitFirstField t) ∧
      ((∀ i, sepMatchAt t i = false) ∧ splitFirstField t = t ∨
        ∃ i, sepMatchAt t i = true ∧ (∀ j, j < i → sepMatchAt t j = false) ∧
          splitFirstField t = t.take i) :=
  ⟨rfl, splitFirstField_spec t⟩

/-- C2 as stated is false: the pipe-separated title `"Foo | Bar"` is
split by the code though the claim's separator set would not split it,
and the em-dash title `"Foo — Bar"` is not split by the code though the
claim says it is. -/
theorem candidate_split_cex :
    candidateOf "Foo | Bar".toList ≠ claimedCandidateOf "Foo | Bar".toList ∧
      candidateOf "Foo — Bar".toList ≠ claimedCandidateOf "Foo — Bar".toList := by
  decide

theorem pick_cons_step (t : List Char) (rest : List (List Char)) :
    pick_name_from_titles (t :: rest) =
      if survivesFilters (candidateOf t) then some (candidateOf t)
      else pick_name_from_titles rest := by
  simp only [pick_name_from_titles, survivesFilters]
  by_cases h1 : STOP_PHRASES.any
      (fun phrase => containsSub phrase ((candidateOf t).map toLowerPy)) = true
  · simp [h1]
  · by_cases h2 : (candidateOf t).any isDigitPy = true
    · simp [h1, h2]
    · by_cases h3 : ((candidateOf t).length < 3 || 60 < (candidateOf t).length) = true
      · simp [h1, h2, h3]
      · simp [h1, h2, h3]

/-- C5: `pick_name_from_titles` returns the first title's candidate that
survives the filters — no stop phrase case-insensitively contained, no
digit, length within [3, 60] — and `none` exactly when no title's
candidate survives. -/
theorem pick_first_survivor (titles : List (List Char)) :
    pick_name_from_titles titles = (titles.map candidateOf).find? survivesFilters ∧
      (pick_name_from_titles titles = none ↔
        ∀ t ∈ titles, survivesFilters (candidateOf t) = false) := by
  have hfind : pick_name_from_titles titles =
      (titles.map candidateOf).find? survivesFilters := by
    induction titles with
    | nil => rfl
    | cons t rest ih =>
      rw [pick_cons_step, List.map_cons]
      by_cases h : survivesFilters (candidateOf t) = true
      · rw [if_pos h, List.find?_cons_of_pos _ h]
      · rw [if_neg h, List.find?_cons_of_neg _ (by simpa using h), ih]
  refine ⟨hfind, ?_⟩
  rw [hfind, List.find?_eq_none]
  constructor
  · intro h t ht
    have := h (candidateOf t) (List.mem_map_of_mem _ ht)
    simpa using this
  · intro h x hx
    rcases List.mem_map.mp hx with ⟨t, ht, rfl⟩
    simp [h t ht]

/-! Lemmas about the institution-identification orchestrator. -/

theorem identifyLoop_spec (search : List Char → List (List Char))
    (nfkd : List Char → List Char) (qs : List (List Char)) :
    (identifyLoop search nfkd qs).1 = qs.findSome? (slugOutcome search nfkd) ∧
      (identifyLoop search nfkd qs).2 =
        qs.take (issuedCount (slugOutcome search nfkd) qs) := by
  induction qs with
  | nil => exact ⟨rfl, rfl⟩
  | cons q rest ih =>
    rcases hp : pick_name_from_titles (search q) with _ | c
    · have ho : slugOutcome search nfkd q = none := by
        simp [slugOutcome, hp]
      constructor
      · simp [identifyLoop, hp, List.findSome?_cons, ho, ih.1]
      · simp [identifyLoop, hp, issuedCount, ho, ih.2, Nat.one_add]
    · by_cases hce : c.isEmpty = true
      · have ho : slugOutcome search nfkd q = none := by
          simp [slugOutcome, hp, hce]
        constructor
        · simp [identifyLoop, hp, hce, List.findSome?_cons, ho, ih.1]
        · simp [identifyLoop, hp, hce, issuedCount, ho, ih.2, Nat.one_add]
      · by_cases hne : (normalize_name nfkd c).isEmpty = true
        · have ho : slugOutcome search nfkd q = none := by
            simp [slugOutcome, hp, hce, hne]
          constructor
          · simp [identifyLoop, hp, hce, hne, List.findSome?_cons, ho, ih.1]
          · simp [identifyLoop, hp, hce, hne, issuedCount, ho, ih.2, Nat.one_add]
        · have ho : slugOutcome search nfkd q = some (normalize_name nfkd c) := by
            simp [slugOutcome, hp, hce, hne]
          constructor
          · simp [identifyLoop, hp, hce, hne, List.findSome?_cons, ho]
          · simp [identifyLoop, hp, hce, hne, issuedCount, ho]

/-- C6: `identify_institution` builds the queries in the order
`"pluggy connector {id} svg bank"` first and, only when the hint list is
non-empty, `"{first hint} logo"` second (no further hints); it tries them
in order and returns the first non-empty normalized slug immediately —
the queries issued are exactly those up to and including the first
successful one — and returns `none` only after all queries are exhausted
(in which case every query was issued). -/
theorem identify_query_order (search : List Char → List (List Char))
    (nfkd : List Char → List Char) (icon_id : List Char)
    (hints : List (List Char)) :
    queriesFor icon_id hints =
      ("pluggy connector ".toList ++ icon_id ++ " svg bank".toList) ::
        (match hints with
         | [] => []
         | h :: _ => [h ++ " logo".toList]) ∧
    identify_institution search nfkd icon_id hints =
      (queriesFor icon_id hints).findSome? (slugOutcome search nfkd) ∧
    (identifyLoop search nfkd (queriesFor icon_id hints)).2 =
      (queriesFor icon_id hints).take
        (issuedCount (slugOutcome search nfkd) (queriesFor icon_id hints)) :=
  ⟨rfl, (identifyLoop_spec search nfkd (queriesFor icon_id hints)).1,
    (identifyLoop_spec search nfkd (queriesFor icon_id hints)).2⟩

/-! Lemmas about the renaming driver. -/

theorem processFile_eq {ε : Type} (search : List Char → Except ε (List (List Char)))
    (nfkd : List Char → List Char) (hintsOf : List Char → List (List Char))
    (dir : List (List Char)) (name : List Char) :
    processFile search nfkd hintsOf dir name =
      match identifyOutcome search nfkd hintsOf name with
      | Except.error e => Except.error e
      | Except.ok none => Except.ok (dir, RenameEvent.skippedNoMatch name)
      | Except.ok (some institution) =>
          if institution.isEmpty then
            Except.ok (dir, RenameEvent.skippedNoMatch name)
          else if newNameFor name institution ∈ dir then
            Except.ok (dir, RenameEvent.skippedTargetExists name
              (newNameFor name institution))
          else
            Except.ok (dir.erase name ++ [newNameFor name institution],
              RenameEvent.renamed name (newNameFor name institution)) := rfl

theorem processFile_error_iff {ε : Type} {search : List Char → Except ε (List (List Char))}
    {nfkd : List Char → List Char} {hintsOf : List Char → List (List Char)}
    {dir : List (List Char)} {name : List Char} {e : ε} :
    processFile search nfkd hintsOf dir name = Except.error e ↔
      identifyOutcome search nfkd hintsOf name = Except.error e := by
  rw [processFile_eq]
  rcases identifyOutcome search nfkd hintsOf name with e2 | inst
  · simp
  · rcases inst with _ | inst
    · simp
    · by_cases hi : inst.isEmpty = true
      · simp [hi]
      · by_cases hm : newNameFor name inst ∈ dir
        · simp [hi, hm]
        · simp [hi, hm]

theorem processFile_ok {ε : Type} (search : List Char → Except ε (List (List Char)))
    (nfkd : List Char → List Char) (hintsOf : List Char → List (List Char))
    (dir : List (List Char)) (name : List Char)
    (h : (identifyOutcome search nfkd hintsOf name).isOk = true) :
    ∃ d2 ev, processFile search nfkd hintsOf dir name = Except.ok (d2, ev) := by
  rw [processFile_eq]
  rcases hio : identifyOutcome search nfkd hintsOf name with e2 | inst
  · rw [hio] at h
    simp [Except.isOk, Except.toBool] at h
  · rcases inst with _ | inst
    · exact ⟨dir, RenameEvent.skippedNoMatch name, rfl⟩
    · by_cases hi : inst.isEmpty = true
      · refine ⟨dir, RenameEvent.skippedNoMatch name, ?_⟩
        simp [hi]
      · by_cases hm : newNameFor name inst ∈ dir
        · refine ⟨dir, RenameEvent.skippedTargetExists name (newNameFor name inst), ?_⟩
          simp [hi, hm]
        · refine ⟨dir.erase name ++ [newNameFor name inst],
            RenameEvent.renamed name (newNameFor name inst), ?_⟩
          simp [hi, hm]

theorem processFile_dir_mem {ε : Type} (search : List Char → Except ε (List (List Char)))
    (nfkd : List Char → List Char) (hintsOf : List Char → List (List Char))
    (dir : List (List Char)) (nm f : List Char) (d2 : List (List Char))
    (ev : RenameEvent)
    (heq : processFile search nfkd hintsOf dir nm = Except.ok (d2, ev))
    (hf : f ∈ dir) (hne : f ≠ nm) : f ∈ d2 := by
  rw [processFile_eq] at heq
  rcases hio : identifyOutcome search nfkd hintsOf nm with e2 | inst
  all_goals rw [hio] at heq
  · simp at heq
  · rcases inst with _ | inst
    · simp only [Except.ok.injEq, Prod.mk.injEq] at heq
      rw [← heq.1]
      exact hf
    · by_cases hi : inst.isEmpty = true
      · simp only [hi, if_pos, Except.ok.injEq, Prod.mk.injEq] at heq
        rw [← heq.1]
        exact hf
      · by_cases hm : newNameFor nm inst ∈ dir
        · simp only [hi, hm, Bool.false_eq_true, if_false, if_true, Except.ok.injEq,
            Prod.mk.injEq] at heq
          rw [← heq.1]
          exact hf
        · simp only [hi, hm, Bool.false_eq_true, if_false, Except.ok.injEq,
            Prod.mk.injEq] at heq
          rw [← heq.1]
          exact List.mem_append_left _ ((List.mem_erase_of_ne hne).mpr hf)

theorem renameLoop_all_ok {ε : Type} (search : List Char → Except ε (List (List Char)))
    (nfkd : List Char → List Char) (hintsOf : List Char → List (List Char)) :
    ∀ (names : List (List Char)) (dir : List (List Char)),
      (∀ nm ∈ names, (identifyOutcome search nfkd hintsOf nm).isOk = true) →
      (renameLoop search nfkd hintsOf names dir).2.2 = none ∧
        (renameLoop search nfkd hintsOf names dir).2.1.length = names.length := by
  intro names
  induction names with
  | nil => exact fun dir _ => ⟨rfl, rfl⟩
  | cons nm rest ih =>
    intro dir h
    obtain ⟨d2, ev, heq⟩ :=
      processFile_ok search nfkd hintsOf dir nm (h nm (List.mem_cons_self nm rest))
    obtain ⟨ha, hb⟩ := ih d2 (fun x hx => h x (List.mem_cons_of_mem nm hx))
    simp [renameLoop, heq, ha, hb]

theorem renameLoop_abort {ε : Type} (search : List Char → Except ε (List (List Char)))
    (nfkd : List Char → List Char) (hintsOf : List Char → List (List Char)) :
    ∀ (pre : List (List Char)) (f : List Char) (post : List (List Char))
      (dir : List (List Char)) (e : ε),
      (∀ nm ∈ pre, (identifyOutcome search nfkd hintsOf nm).isOk = true) →
      identifyOutcome search nfkd hintsOf f = Except.error e →
      (renameLoop search nfkd hintsOf (pre ++ f :: post) dir).2.2 = some e ∧
        (renameLoop search nfkd hintsOf (pre ++ f :: post) dir).2.1.length = pre.length := by
  intro pre
  induction pre with
  | nil =>
    intro f post dir e _ hf
    have hpf : processFile search nfkd hintsOf dir f = Except.error e :=
      processFile_error_iff.mpr hf
    simp [renameLoop, hpf]
  | cons nm rest ih =>
    intro f post dir e hok hf
    obtain ⟨d2, ev, heq⟩ :=
      processFile_ok search nfkd hintsOf dir nm (hok nm (List.mem_cons_self nm rest))
    obtain ⟨ha, hb⟩ := ih f post d2 e (fun x hx => hok x (List.mem_cons_of_mem nm hx)) hf
    simp [renameLoop, heq, ha, hb]

theorem renameLoop_preserves {ε : Type} (search : List Char → Except ε (List (List Char)))
    (nfkd : List Char → List Char) (hintsOf : List Char → List (List Char)) :
    ∀ (names : List (List Char)) (dir : List (List Char)) (f : List Char),
      (∀ nm ∈ names, matchesNumSvg nm = true) →
      f ∈ dir → matchesNumSvg f = false →
      f ∈ (renameLoop search nfkd hintsOf names dir).1 := by
  intro names
  induction names with
  | nil => exact fun dir f _ hf _ => hf
  | cons nm rest ih =>
    intro dir f hall hf hfm
    rcases hpf : processFile search nfkd hintsOf dir nm with e | ⟨d2, ev⟩
    · simp only [renameLoop, hpf]
      exact hf
    · have hne : f ≠ nm := by
        intro heq
        rw [heq, hall nm (List.mem_cons_self nm rest)] at hfm
        exact Bool.true_eq_false.mp hfm
      have hd2 : f ∈ d2 :=
        processFile_dir_mem search nfkd hintsOf dir nm f d2 ev hpf hf hne
      simp only [renameLoop, hpf]
      exact ih d2 f (fun x hx => hall x (List.mem_cons_of_mem nm hx)) hd2 hfm

theorem mem_insertSorted {key : List Char → Nat} {x y : List Char}
    {l : List (List Char)} (h : x ∈ insertSorted key y l) : x = y ∨ x ∈ l := by
  induction l with
  | nil => simpa [insertSorted] using h
  | cons z rest ih =>
    unfold insertSorted at h
    by_cases hk : key y < key z
    · rw [if_pos hk] at h
      rcases List.mem_cons.mp h with h1 | h1
      · exact Or.inl h1
      · exact Or.inr h1
    · rw [if_neg hk] at h
      rcases List.mem_cons.mp h with h1 | h1
      · exact Or.inr (h1 ▸ List.mem_cons_self z rest)
      · rcases ih h1 with h2 | h2
        · exact Or.inl h2
        · exact Or.inr (List.mem_cons_of_mem z h2)

theorem mem_sortByKey_foldl {key : List Char → Nat} :
    ∀ (l acc : List (List Char)) (x : List Char),
      x ∈ l.foldl (fun a y => insertSorted key y a) acc → x ∈ acc ∨ x ∈ l := by
  intro l
  induction l with
  | nil => exact fun acc x h => Or.inl h
  | cons y rest ih =>
    intro acc x h
    simp only [List.foldl_cons] at h
    rcases ih (insertSorted key y acc) x h with hacc | hrest
    · rcases mem_insertSorted hacc with h1 | h1
      · exact Or.inr (h1 ▸ List.mem_cons_self y rest)
      · exact Or.inl h1
    · exact Or.inr (List.mem_cons_of_mem y hrest)

theorem scan_matches {dir : List (List Char)} :
    ∀ nm ∈ scanSvgFiles dir, matchesNumSvg nm = true := by
  intro nm hnm
  unfold scanSvgFiles sortByKey at hnm
  rcases mem_sortByKey_foldl (dir.filter matchesNumSvg) [] nm hnm with h | h
  · simp at h
  · exact (List.mem_filter.mp h).2

/-- C1 as stated is false: with the two pending files `1.svg` and
`2.svg` and a search collaborator whose every call raises a transport
error, the batch run ends with the error recorded, an empty per-file
outcome list and an unchanged directory — the first file's failure
aborted the batch, and `2.svg` was never processed. -/
theorem rename_batch_abort_cex :
    rename_main (fun _ => (Except.error () : Except Unit (List (List Char)))) id
        (fun _ => []) ["1.svg".toList, "2.svg".toList] =
      (["1.svg".toList, "2.svg".toList], [], some ()) := by
  decide

/-- C1 (amended): per-file heuristic failures (no confident match,
target exists) do not abort the batch — when the identification of every
scanned file returns without a raised transport error, the run reaches
the end with one outcome per scanned file — but a raised search
transport failure propagates out of the per-file identification uncaught
and aborts the whole batch: the files after the failing one get no
outcome. -/
theorem rename_batch_amended {ε : Type}
    (search : List Char → Except ε (List (List Char)))
    (nfkd : List Char → List Char) (hintsOf : List Char → List (List Char))
    (dir : List (List Char)) :
    ((∀ nm ∈ scanSvgFiles dir, (identifyOutcome search nfkd hintsOf nm).isOk = true) →
      (rename_main search nfkd hintsOf dir).2.2 = none ∧
        (rename_main search nfkd hintsOf dir).2.1.length = (scanSvgFiles dir).length) ∧
    (∀ (pre : List (List Char)) (f : List Char) (post : List (List Char)) (e : ε),
      scanSvgFiles dir = pre ++ f :: post →
      (∀ nm ∈ pre, (identifyOutcome search nfkd hintsOf nm).isOk = true) →
      identifyOutcome search nfkd hintsOf f = Except.error e →
      (rename_main search nfkd hintsOf dir).2.2 = some e ∧
        (rename_main search nfkd hintsOf dir).2.1.length = pre.length) := by
  constructor
  · intro h
    exact renameLoop_all_ok search nfkd hintsOf (scanSvgFiles dir) dir h
  · intro pre f post e hsc hok hf
    unfold rename_main
    rw [hsc]
    exact renameLoop_abort search nfkd hintsOf pre f post dir e hok hf

/-- Witness for `rename_batch_amended`: a completing run (search returns
an empty result list, the single file gets a skip outcome) and an
aborting run (search raises on the first query of the first file). -/
theorem rename_batch_amended_witness :
    ((rename_main (fun _ => (Except.ok [] : Except Unit (List (List Char)))) id
        (fun _ => []) ["1.svg".toList]).2.2 = none ∧
      (rename_main (fun _ => (Except.ok [] : Except Unit (List (List Char)))) id
        (fun _ => []) ["1.svg".toList]).2.1.length =
        (scanSvgFiles ["1.svg".toList]).length) ∧
    ((rename_main (fun _ => (Except.error () : Except Unit (List (List Char)))) id
        (fun _ => []) ["1.svg".toList]).2.2 = some () ∧
      (rename_main (fun _ => (Except.error () : Except Unit (List (List Char)))) id
        (fun _ => []) ["1.svg".toList]).2.1.length = ([] : List (List Char)).length) :=
  ⟨(rename_batch_amended (fun _ => (Except.ok [] : Except Unit (List (List Char)))) id
      (fun _ => []) ["1.svg".toList]).1 (by decide),
   (rename_batch_amended (fun _ => (Except.error () : Except Unit (List (List Char)))) id
      (fun _ => []) ["1.svg".toList]).2 [] "1.svg".toList [] () (by decide)
      (by decide) rfl⟩

/-- C8: a file that carries the post-naming form
`{identifier}_{slug}.svg` no longer matches the scan pattern
`^\d+\.svg$` (the underscore is not a digit), and the renaming driver
never removes a file whose name does not match the scan pattern — so a
renamed file is renamed at most once and never deleted, and no later or
repeated run renames it again. -/
theorem renamed_files_stable :
    (∀ icon_id slug : List Char,
      matchesNumSvg (icon_id ++ '_' :: (slug ++ ".svg".toList)) = false) ∧
    (∀ (ε : Type) (search : List Char → Except ε (List (List Char)))
      (nfkd : List Char → List Char) (hintsOf : List Char → List (List Char))
      (dir : List (List Char)) (f : List Char),
      f ∈ dir → matchesNumSvg f = false →
      f ∈ (rename_main search nfkd hintsOf dir).1) := by
  constructor
  · intro icon_id slug
    have hform : icon_id ++ '_' :: (slug ++ ".svg".toList) =
        (icon_id ++ '_' :: slug) ++ ".svg".toList := by
      simp
    rw [hform]
    unfold matchesNumSvg
    have h1 : ((icon_id ++ '_' :: slug) ++ ".svg".toList).length - 4 =
        (icon_id ++ '_' :: slug).length := by
      simp only [List.length_append, List.length_cons, String.toList]
      simp
    rw [h1, List.take_left]
    have hC : (icon_id ++ '_' :: slug).all isDigitPy = false := by
      apply Bool.eq_false_iff.mpr
      intro hall
      have := List.all_eq_true.mp hall '_'
        (List.mem_append_right _ (List.mem_cons_self _ _))
      simp [isDigitPy] at this
    simp [hC]
  · intro ε search nfkd hintsOf dir f hf hfm
    exact renameLoop_preserves search nfkd hintsOf (scanSvgFiles dir) dir f
      scan_matches hf hfm

/-- Witness for `renamed_files_stable`: the concrete renamed name
`201_nubank.svg` fails the scan pattern, and a non-matching file
survives a run of the driver. -/
theorem renamed_files_stable_witness :
    matchesNumSvg ("201".toList ++ '_' :: ("nubank".toList ++ ".svg".toList)) = false ∧
      "readme.txt".toList ∈
        (rename_main (fun _ => (Except.error () : Except Unit (List (List Char)))) id
          (fun _ => []) ["readme.txt".toList]).1 :=
  ⟨renamed_files_stable.1 "201".toList "nubank".toList,
   renamed_files_stable.2 Unit (fun _ => Except.error ()) id (fun _ => [])
     ["readme.txt".toList] "readme.txt".toList (by decide) (by decide)⟩

/-- C9: when the target name `{identifier}_{slug}.svg` already exists in
the directory while the driver processes `{identifier}.svg`, the
directory is left exactly as it was — both files stay present and
unchanged, nothing is overwritten, renamed or deleted — and the only
effect is the reported skip. -/
theorem skip_on_collision {ε : Type}
    (search : List Char → Except ε (List (List Char)))
    (nfkd : List Char → List Char) (hintsOf : List Char → List (List Char))
    (dir : List (List Char)) (name institution : List Char)
    (hid : identifyOutcome search nfkd hintsOf name = Except.ok (some institution))
    (hne : institution.isEmpty = false)
    (hmem : newNameFor name institution ∈ dir) :
    processFile search nfkd hintsOf dir name =
      Except.ok (dir, RenameEvent.skippedTargetExists name
        (newNameFor name institution)) := by
  rw [processFile_eq, hid]
  simp [hne, hmem]

/-- Witness for `skip_on_collision`: directory holding `201.svg` and
`201_nubank.svg`, a search whose first result titles yield the slug
`nubank`. -/
theorem skip_on_collision_witness :
    processFile
        (fun _ => (Except.ok ["Nubank - Wikipedia".toList] :
          Except Unit (List (List Char)))) id (fun _ => [])
        ["201.svg".toList, "201_nubank.svg".toList] "201.svg".toList =
      Except.ok (["201.svg".toList, "201_nubank.svg".toList],
        RenameEvent.skippedTargetExists "201.svg".toList
          (newNameFor "201.svg".toList "nubank".toList)) :=
  skip_on_collision
    (fun _ => (Except.ok ["Nubank - Wikipedia".toList] : Except Unit (List (List Char))))
    id (fun _ => []) ["201.svg".toList, "201_nubank.svg".toList] "201.svg".toList
    "nubank".toList rfl rfl (by decide)

/-! Lemmas about the fetcher. -/

theorem download_svg_success {net : Nat → NetOutcome} {icon_id : Nat}
    (dir : List (List Char × List Nat)) (h : isSuccess (net icon_id) = true) :
    download_svg net icon_id dir =
      (writeFile dir (svgFileName icon_id) (bodyOf (net icon_id)), true) := by
  unfold download_svg
  rcases hn : net icon_id with ⟨st, body⟩ | _ | _
  · rw [hn] at h
    unfold isSuccess at h
    have hst : st = 200 := by simpa using h
    subst hst
    simp [bodyOf]
  · rw [hn] at h
    simp [isSuccess] at h
  · rw [hn] at h
    simp [isSuccess] at h

theorem download_svg_failure {net : Nat → NetOutcome} {icon_id : Nat}
    (dir : List (List Char × List Nat)) (h : isSuccess (net icon_id) = false) :
    download_svg net icon_id dir = (dir, false) := by
  unfold download_svg
  rcases hn : net icon_id with ⟨st, body⟩ | _ | _
  · rw [hn] at h
    unfold isSuccess at h
    have hst : st ≠ 200 := by simpa using h
    simp [hst]
  · rfl
  · rfl

theorem writeFile_keys_self (dir : List (List Char × List Nat)) (name : List Char)
    (content : List Nat) : name ∈ (writeFile dir name content).map Prod.fst := by
  unfold writeFile
  by_cases h : dir.any (fun p => p.1 == name) = true
  · rw [if_pos h]
    rcases List.any_eq_true.mp h with ⟨p, hp, hpe⟩
    apply List.mem_map.mpr
    refine ⟨(name, content), ?_, rfl⟩
    apply List.mem_map.mpr
    exact ⟨p, hp, by simp [hpe]⟩
  · rw [if_neg h]
    simp

theorem writeFile_keys_mono {dir : List (List Char × List Nat)} {k : List Char}
    (h : k ∈ dir.map Prod.fst) (name : List Char) (content : List Nat) :
    k ∈ (writeFile dir name content).map Prod.fst := by
  unfold writeFile
  by_cases hc : dir.any (fun p => p.1 == name) = true
  · rw [if_pos hc]
    rcases List.mem_map.mp h with ⟨p, hp, rfl⟩
    by_cases hpe : (p.1 == name) = true
    · apply List.mem_map.mpr
      refine ⟨(name, content), List.mem_map.mpr ⟨p, hp, by simp [hpe]⟩, ?_⟩
      exact (beq_iff_eq.mp hpe).symm
    · apply List.mem_map.mpr
      exact ⟨p, List.mem_map.mpr ⟨p, hp, by simp [hpe]⟩, rfl⟩
  · rw [if_neg hc]
    rw [List.map_append]
    exact List.mem_append_left _ h

theorem writeRun_keys_mono (net : Nat → NetOutcome) :
    ∀ (n start : Nat) (dir : List (List Char × List Nat)) (k : List Char),
      k ∈ dir.map Prod.fst → k ∈ (writeRun net start n dir).map Prod.fst := by
  intro n
  induction n with
  | zero => exact fun start dir k h => h
  | succ m ih =>
    intro start dir k h
    exact ih (start + 1) (writeFile dir (svgFileName start) (bodyOf (net start))) k
      (writeFile_keys_mono h _ _)

theorem writeRun_mem (net : Nat → NetOutcome) :
    ∀ (n start : Nat) (dir : List (List Char × List Nat)) (m : Nat), m < n →
      svgFileName (start + m) ∈ (writeRun net start n dir).map Prod.fst := by
  intro n
  induction n with
  | zero => exact fun start dir m h => absurd h (Nat.not_lt_zero m)
  | succ k ih =>
    intro start dir m h
    rcases m with _ | m2
    · have h0 : svgFileName start ∈
          (writeFile dir (svgFileName start) (bodyOf (net start))).map Prod.fst :=
        writeFile_keys_self dir (svgFileName start) (bodyOf (net start))
      have := writeRun_keys_mono net k (start + 1)
        (writeFile dir (svgFileName start) (bodyOf (net start))) (svgFileName start) h0
      simpa using this
    · have := ih (start + 1) (writeFile dir (svgFileName start) (bodyOf (net start)))
        m2 (by omega)
      rw [show start + (m2 + 1) = start + 1 + m2 by omega]
      exact this

theorem range_map_shift (start k : Nat) :
    start :: (List.range (k + 1)).map (fun m => start + 1 + m) =
      (List.range (k + 2)).map (fun m => start + m) := by
  conv_rhs => rw [List.range_succ_eq_map]
  rw [List.map_cons, List.map_map]
  refine congrArg₂ List.cons (by omega) ?_
  apply List.map_congr_left
  intro m _
  simp only [Function.comp_apply, Nat.succ_eq_add_one]
  omega

theorem fetchLoop_spec (net : Nat → NetOutcome) :
    ∀ (n fuel start : Nat) (dir : List (List Char × List Nat)),
      (∀ m, m < n → isSuccess (net (start + m)) = true) →
      isSuccess (net (start + n)) = false →
      n < fuel →
      fetchLoop net fuel start dir =
        some (writeRun net start n dir, start + n,
          (List.range (n + 1)).map (fun m => start + m)) := by
  intro n
  induction n with
  | zero =>
    intro fuel start dir hsucc hfail hfuel
    rcases fuel with _ | fuel2
    · omega
    · have hd : download_svg net start dir = (dir, false) :=
        download_svg_failure dir (by simpa using hfail)
      simp [fetchLoop, hd, writeRun, List.range_succ_eq_map]
  | succ k ih =>
    intro fuel start dir hsucc hfail hfuel
    rcases fuel with _ | fuel2
    · omega
    · have hs0 : isSuccess (net start) = true := by
        simpa using hsucc 0 (Nat.succ_pos k)
      have hd : download_svg net start dir =
          (writeFile dir (svgFileName start) (bodyOf (net start)), true) :=
        download_svg_success dir hs0
      have ihr := ih fuel2 (start + 1)
        (writeFile dir (svgFileName start) (bodyOf (net start)))
        (fun m hm => by
          rw [show start + 1 + m = start + (m + 1) by omega]
          exact hsucc (m + 1) (by omega))
        (by
          rw [show start + 1 + k = start + (k + 1) by omega]
          exact hfail)
        (by omega)
      simp only [fetchLoop, hd, ihr]
      rw [if_pos trivial]
      refine congrArg some ?_
      refine Prod.ext ?_ (Prod.ext ?_ ?_)
      · rfl
      · simp only
        omega
      · simp only
        exact range_map_shift start k

/-- C7: when the identifiers `201, …, 201+n-1` fetch successfully and
`201+n` is the first failing one, the fetcher driver attempts exactly the
identifiers `201, …, 201+n` in order (never any identifier past the
failing one), stops on the failing one, and the final directory is the
one obtained by writing `{id}.svg` for each identifier before the failing
one — in particular every such file name is present.  `fuel` bounds the
iterations of the `while True` loop in the model and any bound beyond
the failing identifier gives this same result. -/
theorem fetch_sequential_stop (net : Nat → NetOutcome) (n fuel : Nat)
    (hsucc : ∀ m, m < n → isSuccess (net (201 + m)) = true)
    (hfail : isSuccess (net (201 + n)) = false)
    (hfuel : n < fuel) :
    download_main net fuel =
      some (writeRun net 201 n [], 201 + n,
        (List.range (n + 1)).map (fun m => 201 + m)) ∧
    ∀ m, m < n → svgFileName (201 + m) ∈ (writeRun net 201 n []).map Prod.fst :=
  ⟨fetchLoop_spec net n fuel 201 [] hsucc hfail hfuel,
   fun m hm => writeRun_mem net n 201 [] m hm⟩

/-- Witness for `fetch_sequential_stop`: successes for 201–205, the
first failure at 206, fuel 10. -/
theorem fetch_sequential_stop_witness :
    download_main
        (fun i => if i < 206 then NetOutcome.ok 200 [] else NetOutcome.httpError) 10 =
      some (writeRun
          (fun i => if i < 206 then NetOutcome.ok 200 [] else NetOutcome.httpError)
          201 5 [], 206,
        (List.range 6).map (fun m => 201 + m)) ∧
    svgFileName (201 + 2) ∈
      (writeRun
        (fun i => if i < 206 then NetOutcome.ok 200 [] else NetOutcome.httpError)
        201 5 []).map Prod.fst :=
  ⟨(fetch_sequential_stop
      (fun i => if i < 206 then NetOutcome.ok 200 [] else NetOutcome.httpError)
      5 10 (by decide) (by decide) (by decide)).1,
   (fetch_sequential_stop
      (fun i => if i < 206 then NetOutcome.ok 200 [] else NetOutcome.httpError)
      5 10 (by decide) (by decide) (by decide)).2 2 (by decide)⟩

/-- C10: whenever `download_svg` returns failure — a non-200 status, an
`HTTPError` or a `URLError` — it creates and modifies no file: the write
to `{identifier}.svg` happens only on a fully-read 200 response, so a
failed fetch leaves the directory exactly as it was. -/
theorem download_failure_no_write (net : Nat → NetOutcome) (icon_id : Nat)
    (dir : List (List Char × List Nat)) :
    ((download_svg net icon_id dir).2 = false →
      (download_svg net icon_id dir).1 = dir) ∧
    (isSuccess (net icon_id) = false →
      download_svg net icon_id dir = (dir, false)) := by
  constructor
  · intro h
    by_cases hs : isSuccess (net icon_id) = true
    · rw [download_svg_success dir hs] at h
      cases h
    · rw [download_svg_failure dir (Bool.eq_false_iff.mpr hs)]
  · exact download_svg_failure dir

/-- Witness for `download_failure_no_write`: an `HTTPError` on
identifier 201 over an empty directory. -/
theorem download_failure_no_write_witness :
    (download_svg (fun _ => NetOutcome.httpError) 201 []).1 =
        ([] : List (List Char × List Nat)) ∧
      download_svg (fun _ => NetOutcome.httpError) 201 [] = ([], false) :=
  ⟨(download_failure_no_write (fun _ => NetOutcome.httpError) 201 []).1 rfl,
   (download_failure_no_write (fun _ => NetOutcome.httpError) 201 []).2 rfl⟩

end C2F
